import Mathlib

/-!
# Verification of `muse/outputs/cache.py` (and its helper `muse/outputs/sector.py`)

Shallow embedding of the output-caching subsystem of MUSE:

* `OutputCache.__init__` / `cache` / `consolidate_cache` (cache.py, lines 84–142),
* `extract_agents` / `extract_agents_internal` (cache.py, lines 145–180),
* `combine_arrays` and the registered `capacity` consolidation function
  (cache.py, lines 183–213).

Python/pandas/xarray values are modelled as follows:

* a scalar cell is a `Value` (integer, string, or NA/NaN/None);
* a `pandas.DataFrame` is a `DF`: a list of column names plus rows of cells;
* an `xarray.DataArray` is a `DataArr`: an optional `name`, dimension names
  and cells (coordinate tuple plus data value) — exactly the information
  that `rename(q).to_dataframe().reset_index()` turns into a long-format
  `DF` (dimension columns first, then the value column named `q`);
* a `Dataset` used as a per-quantity container is the ordered association
  list of its variables, keyed by the integer arrival index;
* Python's `sorted` is a stable sort, embedded by the stable insertion sort
  `ssort`, and string comparison is lexicographic on Unicode code points,
  embedded by `strLe`;
* `pandas.DataFrame.merge(left, right, how="right")` (no `on=`) joins on the
  intersection of the two column sets, keeps every row of `right` in order
  (each matched against the rows of `left` in order, NA-filling the
  left-only columns of unmatched rows), embedded by `mergeRight`;
* fallible Python operations are embedded in `Except PyErr`; operations of
  the source that cannot raise are embedded as total functions.
-/

namespace MuseCache

/-- A scalar cell of a table: an integer, a string, or a missing value
(Python `None` / pandas `NaN`). -/
inductive Value where
  | int : Int → Value
  | str : String → Value
  | na : Value
deriving DecidableEq, Repr

/-- A `pandas.DataFrame`: named columns and rows of cells.  A well-formed
frame has every row of length `cols.length`; operations below preserve
that. -/
structure DF where
  cols : List String
  rows : List (List Value)
deriving DecidableEq, Repr

/-- Index of the first column named `c`, if any. -/
def colIdx (cols : List String) (c : String) : Option Nat :=
  match cols with
  | [] => none
  | c' :: rest => if c' = c then some 0 else (colIdx rest c).map (· + 1)

/-- The cell of row `row` (laid out along `cols`) in column `c`; `Value.na`
if the column is absent. -/
def getCell (cols : List String) (row : List Value) (c : String) : Value :=
  match colIdx cols c with
  | some i => row.getD i Value.na
  | none => Value.na

/-- Lexicographic comparison of character lists by Unicode code point —
Python's string ordering. -/
def charListLe : List Char → List Char → Bool
  | [], _ => true
  | _ :: _, [] => false
  | a :: as, b :: bs =>
    if a.toNat < b.toNat then true
    else if b.toNat < a.toNat then false
    else charListLe as bs

/-- Python's `<=` on strings: lexicographic by code point. -/
def strLe (a b : String) : Bool := charListLe a.data b.data

/-- Insert `a` after every element `b` with `le b a` — the insertion step of
a stable sort. -/
def sinsert (le : α → α → Bool) (a : α) : List α → List α
  | [] => [a]
  | b :: bs => if le b a then b :: sinsert le a bs else a :: b :: bs

/-- Stable sort by `le` (left-to-right insertion): the behaviour of Python's
stable `sorted`. -/
def ssort (le : α → α → Bool) (l : List α) : List α :=
  l.foldl (fun acc a => sinsert le a acc) []

/-- `pandas.DataFrame.merge(l, r, how="right")` with no `on=` argument:
join on the common columns; keep all rows of `r` in order, each combined
with every matching row of `l` (in order), or NA-filled in the columns only
`l` has when no row of `l` matches.  Result columns are `l`'s followed by
`r`'s new ones. -/
def mergeRight (l r : DF) : DF :=
  let common := l.cols.filter (fun c => r.cols.contains c)
  let resCols := l.cols ++ r.cols.filter (fun c => !l.cols.contains c)
  let mkRow (lrow : Option (List Value)) (rrow : List Value) : List Value :=
    resCols.map (fun c =>
      if r.cols.contains c then getCell r.cols rrow c
      else match lrow with
        | some lr => getCell l.cols lr c
        | none => Value.na)
  { cols := resCols
    rows := r.rows.flatMap (fun rrow =>
      match l.rows.filter
          (fun lrow => common.all
            (fun c => getCell l.cols lrow c == getCell r.cols rrow c)) with
      | [] => [mkRow none rrow]
      | ms => ms.map (fun lrow => mkRow (some lrow) rrow)) }

/-- `data[data[q] != 0]`: keep the rows whose cell in column `q` differs
from the integer 0 (as in pandas, an NA cell compares as `!= 0`). -/
def filterNonzero (q : String) (df : DF) : DF :=
  { df with rows := df.rows.filter (fun row => getCell df.cols row q != Value.int 0) }

/-- `data[sorted(data.columns)]`: reorder the columns alphabetically. -/
def sortCols (df : DF) : DF :=
  let sc := ssort strLe df.cols
  { cols := sc
    rows := df.rows.map (fun row => sc.map (fun c => getCell df.cols row c)) }

/-- `data.loc[mask, key] = v` for a positional boolean `mask` computed
beforehand: write `v` into column `key` of every masked row; if the column
does not exist, pandas creates it, NA elsewhere. -/
def setColMasked (df : DF) (mask : List Bool) (key : String) (v : Value) : DF :=
  match colIdx df.cols key with
  | some i =>
    { df with rows := List.zipWith (fun row m => if m then row.set i v else row) df.rows mask }
  | none =>
    { cols := df.cols ++ [key]
      rows := List.zipWith (fun row m => row ++ [if m then v else Value.na]) df.rows mask }

/-- One entry of the Agent Info Record: the value
`{"agent": name, "type": category, "sector": sector_name}` built by
`extract_agents_internal` (cache.py, lines 175–178). -/
structure AgentInfo where
  agent : String
  type : String
  sector : String
deriving DecidableEq, Repr

/-- The record as the ordered key/value list Python iterates over
(`dict` insertion order: `agent`, `type`, `sector`). -/
def AgentInfo.items (i : AgentInfo) : List (String × Value) :=
  [("agent", Value.str i.agent), ("type", Value.str i.type), ("sector", Value.str i.sector)]

/-- One iteration of the loop of `capacity` (cache.py, lines 208–211):
`filter = data.agent == agent` is computed once on the current frame, then
each key of the record is written through that (positional) mask. -/
def enrichAgent (df : DF) (aid : String) (info : AgentInfo) : DF :=
  let mask := df.rows.map (fun row => getCell df.cols row "agent" == Value.str aid)
  info.items.foldl (fun d kv => setColMasked d mask kv.1 kv.2) df

/-- The whole `for agent in list(agents): ...` loop of `capacity`
(cache.py, lines 208–211), with the Agent Info Record given as the ordered
association list of its (distinct) keys with their first-wins values. -/
def enrich (agents : List (String × AgentInfo)) (df : DF) : DF :=
  agents.foldl (fun d p => enrichAgent d p.1 p.2) df

/-- An `xarray.DataArray`: a name (possibly `None`), dimension names, and
cells (coordinate tuple plus stored value). -/
structure DataArr where
  name : Option String
  dims : List String
  cells : List (List Value × Value)
deriving DecidableEq, Repr

/-- `arr.rename(q).to_dataframe().reset_index()`: the long-format frame of
a data array — the dimension columns followed by the value column named
`q`. -/
def toDF (arr : DataArr) (q : String) : DF :=
  { cols := arr.dims ++ [q]
    rows := arr.cells.map (fun cell => cell.1 ++ [cell.2]) }

/-- A per-quantity container: the `xr.Dataset` of cached entries as the
ordered association list of its variables, keyed by arrival index
(`self.to_save[quantity][order] = ...`, cache.py, line 127). -/
abbrev Container := List (Nat × DataArr)

/-- `combine_arrays` (cache.py, lines 183–195): convert each entry (in
arrival order) to its long-format frame with the value column renamed to
`quantity`, then `reduce` them with right-biased merges.  `functools.reduce`
raises `TypeError` on an empty container, hence the `Option`. -/
def combine_arrays (data : Container) (quantity : String) : Option DF :=
  match data.map (fun p => toDF p.2 quantity) with
  | [] => none
  | d :: ds => some (ds.foldl mergeRight d)

/-- The registered `capacity` output quantity (cache.py, lines 198–213):
merge the cached entries, drop the rows whose `capacity` value is 0,
overwrite the agent metadata columns per matching agent, and return the
columns sorted alphabetically.  (`inspect` resolves `quantity` to the
function's own name, `"capacity"`.) -/
def capacity (cached : Container) (agents : List (String × AgentInfo)) : Option DF :=
  (combine_arrays cached "capacity").map
    (fun data => sortCols (enrich agents (filterNonzero "capacity" data)))

/-- An agent as `extract_agents_internal` reads it: `uuid`, `name` and
`category` attributes. -/
structure Agent where
  uuid : String
  name : String
  category : String
deriving DecidableEq, Repr

/-- A sector as `extract_agents_internal` reads it: `getattr(sector,
"name", "unnamed")` and `getattr(sector, "agents", [])`. -/
structure Sector where
  name : Option String
  agents : List Agent
deriving DecidableEq, Repr

/-- First-occurrence lookup in an association list (Python `dict`
access). -/
def lookupA (m : List (String × α)) (k : String) : Option α :=
  match m with
  | [] => none
  | (k', v) :: rest => if k' = k then some v else lookupA rest k

/-- Python `dict` assignment `m[k] = v`: replace the value in place if the
key exists, else append the new key. -/
def dictInsert (m : List (String × α)) (k : String) (v : α) : List (String × α) :=
  match m with
  | [] => [(k, v)]
  | (k', v') :: rest => if k' = k then (k, v) :: rest else (k', v') :: dictInsert rest k v

/-- `extract_agents_internal` (cache.py, lines 159–180): sort the sector's
agents by name (Python's stable `sorted` with `attrgetter("name")`), then
record `{uuid: {agent, type, sector}}` for each. -/
def extract_agents_internal (s : Sector) : List (String × AgentInfo) :=
  (ssort (fun a b => strLe a.name b.name) s.agents).foldl
    (fun info a =>
      dictInsert info a.uuid ⟨a.name, a.category, s.name.getD "unnamed"⟩)
    []

/-- `extract_agents` (cache.py, lines 145–156): the `ChainMap` of the
per-sector dictionaries, kept as the list of maps it chains. -/
def extract_agents (sectors : List Sector) : List (List (String × AgentInfo)) :=
  sectors.map extract_agents_internal

/-- `ChainMap.__getitem__`: search the chained maps in order, first map
containing the key wins. -/
def chainLookup (maps : List (List (String × AgentInfo))) (k : String) : Option AgentInfo :=
  match maps with
  | [] => none
  | m :: rest =>
    match lookupA m k with
    | some v => some v
    | none => chainLookup rest k

/-- A Python exception raised by this code. -/
inductive PyErr where
  | typeError : PyErr
  | keyError : PyErr
deriving DecidableEq, Repr

/-- One output-parameter specification handed to `OutputCache.__init__`:
either a bare string, or a mapping whose `"quantity"` key holds a string. -/
inductive PParam where
  | str : String → PParam
  | map : String → PParam
deriving DecidableEq, Repr

/-- The subscript `p["quantity"]` (cache.py, lines 103–110): on a bare
string Python raises `TypeError` (string indices must be integers); on a
mapping it yields the `"quantity"` value. -/
def PParam.quantity : PParam → Except PyErr String
  | .str _ => .error .typeError
  | .map q => .ok q

/-- Evaluate `p["quantity"]` on each parameter, left to right, propagating
the first exception — the evaluation order of the dict comprehensions in
`OutputCache.__init__`. -/
def getQuantities : List PParam → Except PyErr (List String)
  | [] => .ok []
  | p :: rest => do
    let q ← p.quantity
    let qs ← getQuantities rest
    .ok (q :: qs)

/-- Python `dict` comprehension key order: first occurrence of each key. -/
def pyDedup (l : List String) : List String :=
  match l with
  | [] => []
  | k :: rest => k :: (pyDedup rest).filter (· ≠ k)

/-- The in-memory state `self.to_save`: one container per retained
quantity, in dictionary (insertion) order. -/
abbrev CacheState := List (String × Container)

/-- The parts of a constructed `OutputCache` the claims speak about: the
`to_save` containers and the keys of the `factory` (sink) mapping. -/
structure OutputCacheInit where
  to_save : CacheState
  factoryKeys : List String
deriving DecidableEq, Repr

/-- `OutputCache.__init__` (cache.py, lines 84–112): filter the parameters
to the registered quantities, build one empty container per retained
quantity (`to_save`) and one bound sink per retained quantity (`factory`,
whose keys are `to_save`'s).  Evaluating `p["quantity"]` on a bare-string
parameter raises `TypeError`. -/
def initOutputCache (output_quantities : List String) (parameters : List PParam) :
    Except PyErr OutputCacheInit := do
  let qs ← getQuantities parameters
  let keys := pyDedup (qs.filter (fun q => output_quantities.contains q))
  let fkeys := pyDedup (qs.filter (fun q => keys.contains q))
  .ok ⟨keys.map (fun q => (q, [])), fkeys⟩

/-- `OutputCache.cache` (cache.py, lines 114–127).  `quantity` defaults to
`data.name`; when the resolved quantity is not a key of `to_save`
(including `None`, which is never a key) the call returns at once;
otherwise the entry — deep-copied and renamed to the quantity — is stored
at key `len(container)`.  No operation in the body can raise (`in` on a
`None` key is just `False`), so the embedding is total. -/
def cache (st : CacheState) (data : DataArr) (quantity : Option String) : CacheState :=
  let q := match quantity with
    | some s => some s
    | none => data.name
  match q with
  | none => st
  | some qn =>
    match lookupA st qn with
    | none => st
    | some c =>
      dictInsert st qn (c ++ [(c.length, { data with name := some qn })])

/-- The flush loop of `consolidate_cache` (cache.py, lines 138–141): skip
empty containers, call the bound factory/sink of each non-empty one in
dictionary order; an exception aborts the loop.  Returns the quantities
whose factory was invoked and the first error, if any. -/
def runFlush (factory : String → Container → Option PyErr) :
    List (String × Container) → List String × Option PyErr
  | [] => ([], none)
  | (q, c) :: rest =>
    if c.length = 0 then runFlush factory rest
    else
      match factory q c with
      | some e => ([q], some e)
      | none =>
        let r := runFlush factory rest
        (q :: r.1, r.2)

/-- `OutputCache.consolidate_cache` (cache.py, lines 129–142): run the
flush loop, then — only when no exception was raised — replace `to_save`
with fresh empty containers for the same quantities (line 142).  The loop
body never mutates `to_save`, so on an exception the state is exactly the
pre-call state.  Returns the invoked quantities, the propagated error (if
any) and the resulting `to_save`. -/
def consolidate_cache (factory : String → Container → Option PyErr) (st : CacheState) :
    List String × Option PyErr × CacheState :=
  match runFlush factory st with
  | (log, none) => (log, none, st.map (fun p => (p.1, ([] : Container))))
  | (log, some e) => (log, some e, st)

/-- The quantity a `cache(data, quantity)` call resolves to:
`quantity if quantity is not None else data.name` (cache.py, line 121). -/
def resolveQ (call : DataArr × Option String) : Option String :=
  match call.2 with
  | some s => some s
  | none => call.1.name

/-- A sequence of `cache()` calls, applied in order. -/
def runCalls (st : CacheState) (calls : List (DataArr × Option String)) : CacheState :=
  calls.foldl (fun s c => cache s c.1 c.2) st

/-- Modelled from the spec (§4.3, §8 round-trip): the "right-biased
successive merge" of the arrival entries — fold the entries, in arrival
order, with the right-biased merge; undefined on no entries. -/
def specRightMerge (entries : List DF) : Option DF :=
  match entries with
  | [] => none
  | e :: es => some (es.foldl mergeRight e)

/-- Write `v` into the (existing) column `k` of a single row; the row
unchanged if the column is absent. -/
def setCellIdx (cols : List String) (row : List Value) (k : String) (v : Value) : List Value :=
  match colIdx cols k with
  | some i => row.set i v
  | none => row

/-- Apply a key/value list to a single row. -/
def rowApply (cols : List String) (items : List (String × Value)) (row : List Value) : List Value :=
  items.foldl (fun r kv => setCellIdx cols r kv.1 kv.2) row

/-- The row-level view of the enrichment loop: each agent of the record in
turn rewrites the row if its `agent` cell matches that agent's uuid. -/
def enrichRow (cols : List String) : List (String × AgentInfo) → List Value → List Value
  | [], row => row
  | p :: rest, row =>
    enrichRow cols rest
      (if getCell cols row "agent" == Value.str p.1 then rowApply cols p.2.items row else row)

/-! Concrete sample data used by the witness theorems. -/

/-- A sample cached entry: capacities 3 and 0 for two technologies. -/
def sampleArr : DataArr :=
  ⟨some "capacity", ["tech"], [([Value.str "t1"], Value.int 3), ([Value.str "t2"], Value.int 0)]⟩

/-- A second sample entry sharing technology `t2`. -/
def sampleArr2 : DataArr :=
  ⟨none, ["tech"], [([Value.str "t2"], Value.int 5)]⟩

/-- A sample merged table for the enrichment claim: two rows, one whose
`agent` cell is the known uuid `X`, one with the unknown agent `Z`. -/
def sampleEnrichDF : DF :=
  ⟨["agent", "capacity", "sector", "type"],
    [[Value.str "X", Value.int 3, Value.str "s0", Value.str "c0"],
      [Value.str "Z", Value.int 4, Value.str "s0", Value.str "c0"]]⟩

/-- A sample Agent Info Record with the single uuid `X`. -/
def sampleAgents : List (String × AgentInfo) := [("X", ⟨"Alice", "retrofit", "power"⟩)]

/-- A sample sector `power` owning agent `X` (named Alice). -/
def sampleSectorA : Sector := ⟨some "power", [⟨"X", "Alice", "retrofit"⟩]⟩

/-- A second, unnamed sample sector also owning an agent `X` (named Bob). -/
def sampleSectorB : Sector := ⟨none, [⟨"X", "Bob", "new"⟩, ⟨"Y", "Carol", "retrofit"⟩]⟩

/-! ## Association-list lemmas -/

theorem lookupA_dictInsert_self (m : List (String × α)) (k : String) (v : α) :
    lookupA (dictInsert m k v) k = some v := by
  induction m with
  | nil => simp [dictInsert, lookupA]
  | cons p rest ih =>
    by_cases h : p.1 = k
    · simp [dictInsert, lookupA, h]
    · simp [dictInsert, lookupA, h, ih]

theorem lookupA_dictInsert_ne (m : List (String × α)) (k k' : String) (v : α)
    (h : k' ≠ k) : lookupA (dictInsert m k v) k' = lookupA m k' :=
  by
  induction m with
  | nil => simp [dictInsert, lookupA, Ne.symm h]
  | cons p rest ih =>
    by_cases hp : p.1 = k
    · subst hp
      simp [dictInsert, lookupA, Ne.symm h]
    · simp [dictInsert, lookupA, hp, ih]

theorem lookupA_eq_none_of_not_mem (m : List (String × α)) (k : String)
    (h : ∀ p ∈ m, p.1 ≠ k) : lookupA m k = none := by
  induction m with
  | nil => rfl
  | cons p rest ih =>
    have hp : p.1 ≠ k := h p (by simp)
    simp only [lookupA, hp, if_false]
    exact ih (fun q hq => h q (by simp [hq]))

theorem mem_keys_of_lookupA_isSome (m : List (String × α)) (k : String)
    (h : lookupA m k ≠ none) : k ∈ m.map Prod.fst := by
  induction m with
  | nil => simp [lookupA] at h
  | cons p rest ih =>
    by_cases hp : p.1 = k
    · simp [hp]
    · simp only [lookupA, hp, if_false] at h
      simpa using Or.inr (ih h)

theorem mem_pyDedup (l : List String) (k : String) : k ∈ pyDedup l ↔ k ∈ l := by
  induction l with
  | nil => simp [pyDedup]
  | cons a rest ih =>
    by_cases h : k = a
    · simp [pyDedup, h]
    · simp [pyDedup, h, List.mem_filter, ih]

/-! ## `cache` lemmas -/

theorem cache_noop_of_not_configured (st : CacheState) (d : DataArr) (q : String)
    (h : lookupA st q = none) : cache st d (some q) = st := by
  simp [cache, h]

theorem cache_noop_of_no_name (st : CacheState) (d : DataArr)
    (h : d.name = none) : cache st d none = st := by
  simp [cache, h]

/-- `cache` never adds a key: an unconfigured quantity stays unconfigured. -/
theorem cache_preserves_none (st : CacheState) (d : DataArr) (oq : Option String)
    (q : String) (h : lookupA st q = none) : lookupA (cache st d oq) q = none := by
  unfold cache
  rcases hres : (match oq with | some s => some s | none => d.name) with _ | qn
  · simp only [hres]
    exact h
  · simp only [hres]
    rcases hq : lookupA st qn with _ | c
    · simp only [hq]
      exact h
    · simp only [hq]
      have hne : q ≠ qn := by
        intro hEq
        rw [hEq] at h
        rw [h] at hq
        exact Option.noConfusion hq
      rw [lookupA_dictInsert_ne _ _ _ _ hne]
      exact h

theorem runCalls_preserves_none (st : CacheState) (q : String)
    (calls : List (DataArr × Option String)) (h : lookupA st q = none) :
    lookupA (runCalls st calls) q = none := by
  induction calls generalizing st with
  | nil => simpa [runCalls] using h
  | cons c rest ih =>
    simp only [runCalls, List.foldl_cons]
    exact ih _ (cache_preserves_none st c.1 c.2 q h)

/-! ## `consolidate_cache` lemmas -/

theorem runFlush_log_subset (factory : String → Container → Option PyErr)
    (st : List (String × Container)) : (runFlush factory st).1 ⊆ st.map Prod.fst := by
  induction st with
  | nil => simp [runFlush]
  | cons p rest ih =>
    simp only [runFlush]
    by_cases hc : p.2.length = 0
    · simp only [hc, if_true, List.map_cons]
      exact ih.trans (List.subset_cons_self _ _)
    · simp only [hc, if_false]
      rcases factory p.1 p.2 with _ | e
      · simp only [List.map_cons]
        exact List.cons_subset_cons _ ih
      · intro x hx
        simp only [List.mem_singleton] at hx
        simp [hx]

theorem consolidate_ok_state (factory : String → Container → Option PyErr)
    (st : CacheState) (log : List String) (st' : CacheState)
    (h : consolidate_cache factory st = (log, none, st')) :
    st' = st.map (fun p => (p.1, ([] : Container))) := by
  unfold consolidate_cache at h
  rcases hrf : runFlush factory st with ⟨log', err⟩
  rw [hrf] at h
  cases err with
  | none =>
    simp only [Prod.mk.injEq] at h
    exact h.2.2.symm
  | some e => simp [Prod.mk.injEq] at h

theorem lookupA_ne_none_of_mem_keys (m : List (String × α)) (k : String)
    (h : k ∈ m.map Prod.fst) : lookupA m k ≠ none := by
  induction m with
  | nil => simp at h
  | cons p rest ih =>
    by_cases hp : p.1 = k
    · simp [lookupA, hp]
    · simp only [List.map_cons, List.mem_cons] at h
      rcases h with h | h
      · exact absurd h.symm hp
      · simpa [lookupA, hp] using ih h

theorem runFlush_error_at (factory : String → Container → Option PyErr)
    (fore aft : List (String × Container)) (q : String) (c : Container) (e : PyErr)
    (hc : c ≠ []) (he : factory q c = some e)
    (hfore : ∀ p ∈ fore, p.2 ≠ [] → factory p.1 p.2 = none) :
    runFlush factory (fore ++ (q, c) :: aft) =
      ((fore.filter (fun p => !p.2.isEmpty)).map Prod.fst ++ [q], some e) := by
  induction fore with
  | nil =>
    have hlen : ¬ c.length = 0 := by simpa [List.length_eq_zero] using hc
    simp [runFlush, hlen, he]
  | cons p fore' ih =>
    by_cases hp : p.2 = []
    · have hlen : p.2.length = 0 := by simp [hp]
      have hemp : p.2.isEmpty = true := by simp [hp]
      have := ih (fun p' hp' => hfore p' (by simp [hp']))
      simp [runFlush, hlen, this, List.filter_cons, hemp]
    · have hlen : ¬ p.2.length = 0 := by simpa [List.length_eq_zero] using hp
      have hemp : p.2.isEmpty = false := by
        cases hpp : p.2 with
        | nil => exact absurd hpp hp
        | cons a l => simp
      have hnone : factory p.1 p.2 = none := hfore p (by simp) hp
      have := ih (fun p' hp' => hfore p' (by simp [hp']))
      simp [runFlush, hlen, hnone, this, List.filter_cons, hemp]

theorem consolidate_log_eq_runFlush_log (factory : String → Container → Option PyErr)
    (st : CacheState) : (consolidate_cache factory st).1 = (runFlush factory st).1 := by
  unfold consolidate_cache
  rcases h : runFlush factory st with ⟨log, err⟩
  cases err <;> simp

theorem getQuantities_on_maps (ms : List String) :
    getQuantities (ms.map PParam.map) = Except.ok ms := by
  induction ms with
  | nil => rfl
  | cons a rest ih =>
    simp only [List.map_cons, getQuantities, PParam.quantity, ih]
    rfl

/-! ## Column-index and cell lemmas -/

theorem colIdx_isSome_of_mem (cols : List String) (c : String) (h : c ∈ cols) :
    ∃ i, colIdx cols c = some i := by
  induction cols with
  | nil => simp at h
  | cons a rest ih =>
    by_cases ha : a = c
    · exact ⟨0, by simp [colIdx, ha]⟩
    · rcases List.mem_cons.mp h with h' | h'
      · exact absurd h'.symm ha
      · rcases ih h' with ⟨i, hi⟩
        exact ⟨i + 1, by simp [colIdx, ha, hi]⟩

theorem colIdx_getElem (cols : List String) (c : String) :
    ∀ i, colIdx cols c = some i → cols[i]? = some c := by
  induction cols with
  | nil => intro i h; simp [colIdx] at h
  | cons a rest ih =>
    intro i h
    by_cases ha : a = c
    · simp only [colIdx, ha, if_true] at h
      cases h
      simp [ha]
    · simp only [colIdx, ha, if_false, Option.map_eq_some'] at h
      rcases h with ⟨j, hj, rfl⟩
      simpa using ih j hj

theorem colIdx_lt_length (cols : List String) (c : String) (i : Nat)
    (h : colIdx cols c = some i) : i < cols.length := by
  have := colIdx_getElem cols c i h
  by_contra hge
  push_neg at hge
  rw [List.getElem?_eq_none hge] at this
  exact Option.noConfusion this

theorem getCell_of_colIdx (cols : List String) (row : List Value) (c : String) (i : Nat)
    (h : colIdx cols c = some i) : getCell cols row c = row.getD i Value.na := by
  simp [getCell, h]

theorem getD_set_self (l : List Value) (i : Nat) (v : Value) (h : i < l.length) :
    (l.set i v).getD i Value.na = v := by
  simp [List.getD, List.getElem?_set_self, h]

theorem getD_set_ne (l : List Value) (i j : Nat) (v : Value) (h : i ≠ j) :
    (l.set i v).getD j Value.na = l.getD j Value.na := by
  simp [List.getD, List.getElem?_set_ne h]

/-! ## Sorting lemmas -/

theorem sinsert_perm (le : α → α → Bool) (a : α) (l : List α) :
    (sinsert le a l).Perm (a :: l) := by
  induction l with
  | nil => exact List.Perm.refl _
  | cons b bs ih =>
    simp only [sinsert]
    split
    · exact (ih.cons b).trans (List.Perm.swap a b bs)
    · exact List.Perm.refl _

theorem foldl_sinsert_perm (le : α → α → Bool) :
    ∀ (l acc : List α), (l.foldl (fun acc a => sinsert le a acc) acc).Perm (acc ++ l) := by
  intro l
  induction l with
  | nil => intro acc; simp
  | cons a l ih =>
    intro acc
    have h1 := ih (sinsert le a acc)
    have h2 : (sinsert le a acc ++ l).Perm ((a :: acc) ++ l) :=
      (sinsert_perm le a acc).append_right l
    have h3 : (acc ++ a :: l).Perm (a :: (acc ++ l)) := List.perm_middle
    exact (h1.trans (h2.trans (List.Perm.refl _))).trans h3.symm

theorem ssort_perm (le : α → α → Bool) (l : List α) : (ssort le l).Perm l := by
  simpa [ssort] using foldl_sinsert_perm le l []

/-! ## Enrichment-loop lemmas -/

theorem setColMasked_map (cols : List String) (rows : List (List Value))
    (g : List Value → List Value) (prd : List Value → Bool) (key : String) (v : Value)
    (i : Nat) (hidx : colIdx cols key = some i) :
    setColMasked ⟨cols, rows.map g⟩ (rows.map prd) key v =
      ⟨cols, rows.map (fun r => if prd r then (g r).set i v else g r)⟩ := by
  simp only [setColMasked, hidx]
  congr 1
  induction rows with
  | nil => rfl
  | cons r rs ih => simp [ih]

theorem foldl_setColMasked_map (cols : List String) (rows : List (List Value))
    (prd : List Value → Bool) :
    ∀ (items : List (String × Value)) (g : List Value → List Value),
      (∀ kv ∈ items, ∃ i, colIdx cols kv.1 = some i) →
      items.foldl (fun d kv => setColMasked d (rows.map prd) kv.1 kv.2) ⟨cols, rows.map g⟩ =
        ⟨cols, rows.map (fun r => if prd r then rowApply cols items (g r) else g r)⟩ := by
  intro items
  induction items with
  | nil =>
    intro g _
    simp [rowApply]
  | cons kv items ih =>
    intro g hks
    rcases hks kv (by simp) with ⟨i, hi⟩
    simp only [List.foldl_cons]
    rw [setColMasked_map cols rows g prd kv.1 kv.2 i hi]
    rw [ih _ (fun kv' hkv' => hks kv' (by simp [hkv']))]
    congr 1
    apply List.map_congr_left
    intro r _
    by_cases hr : prd r
    · simp only [hr, if_true, rowApply, List.foldl_cons, setCellIdx, hi]
    · simp [hr]

theorem enrichAgent_map (cols : List String) (rows : List (List Value))
    (g : List Value → List Value) (aid : String) (info : AgentInfo)
    (hag : "agent" ∈ cols) (hty : "type" ∈ cols) (hse : "sector" ∈ cols) :
    enrichAgent ⟨cols, rows.map g⟩ aid info =
      ⟨cols, rows.map (fun r =>
        if getCell cols (g r) "agent" == Value.str aid
        then rowApply cols info.items (g r) else g r)⟩ := by
  unfold enrichAgent
  simp only [List.map_map]
  exact foldl_setColMasked_map cols rows _ info.items g
    (by
      intro kv hkv
      simp only [AgentInfo.items, List.mem_cons, List.mem_singleton] at hkv
      rcases hkv with rfl | rfl | rfl | h
      · exact colIdx_isSome_of_mem cols "agent" hag
      · exact colIdx_isSome_of_mem cols "type" hty
      · exact colIdx_isSome_of_mem cols "sector" hse
      · simp at h)

theorem enrich_map (cols : List String) (rows : List (List Value))
    (hag : "agent" ∈ cols) (hty : "type" ∈ cols) (hse : "sector" ∈ cols) :
    ∀ (agents : List (String × AgentInfo)) (g : List Value → List Value),
      enrich agents ⟨cols, rows.map g⟩ =
        ⟨cols, rows.map (fun r => enrichRow cols agents (g r))⟩ := by
  intro agents
  induction agents with
  | nil =>
    intro g
    rfl
  | cons p agents ih =>
    intro g
    show enrich agents (enrichAgent ⟨cols, rows.map g⟩ p.1 p.2) = _
    rw [enrichAgent_map cols rows g p.1 p.2 hag hty hse, ih]
    rfl

theorem enrich_rows (df : DF) (agents : List (String × AgentInfo))
    (hag : "agent" ∈ df.cols) (hty : "type" ∈ df.cols) (hse : "sector" ∈ df.cols) :
    enrich agents df = ⟨df.cols, df.rows.map (enrichRow df.cols agents)⟩ := by
  have h := enrich_map df.cols df.rows hag hty hse agents id
  simpa [List.map_id] using h

theorem rowApply_items_cells (cols : List String) (r : List Value) (info : AgentInfo)
    (hlen : r.length = cols.length)
    (hag : "agent" ∈ cols) (hty : "type" ∈ cols) (hse : "sector" ∈ cols) :
    getCell cols (rowApply cols info.items r) "agent" = Value.str info.agent ∧
    getCell cols (rowApply cols info.items r) "type" = Value.str info.type ∧
    getCell cols (rowApply cols info.items r) "sector" = Value.str info.sector ∧
    (rowApply cols info.items r).length = r.length := by
  rcases colIdx_isSome_of_mem cols "agent" hag with ⟨ia, hia⟩
  rcases colIdx_isSome_of_mem cols "type" hty with ⟨it, hit⟩
  rcases colIdx_isSome_of_mem cols "sector" hse with ⟨is, his⟩
  have hgia := colIdx_getElem cols "agent" ia hia
  have hgit := colIdx_getElem cols "type" it hit
  have hgis := colIdx_getElem cols "sector" is his
  have hia_it : ia ≠ it := by
    intro h
    rw [h] at hgia
    rw [hgit] at hgia
    simp at hgia
  have hia_is : ia ≠ is := by
    intro h
    rw [h] at hgia
    rw [hgis] at hgia
    simp at hgia
  have hit_is : it ≠ is := by
    intro h
    rw [h] at hgit
    rw [hgis] at hgit
    simp at hgit
  have hexp : rowApply cols info.items r =
      ((r.set ia (Value.str info.agent)).set it (Value.str info.type)).set is
        (Value.str info.sector) := by
    simp [rowApply, AgentInfo.items, setCellIdx, hia, hit, his]
  have hlia : ia < r.length := hlen ▸ colIdx_lt_length cols "agent" ia hia
  have hlit : it < r.length := hlen ▸ colIdx_lt_length cols "type" it hit
  have hlis : is < r.length := hlen ▸ colIdx_lt_length cols "sector" is his
  refine ⟨?_, ?_, ?_, ?_⟩
  · rw [getCell_of_colIdx cols _ "agent" ia hia, hexp,
      getD_set_ne _ is ia _ (Ne.symm hia_is), getD_set_ne _ it ia _ (Ne.symm hia_it),
      getD_set_self _ ia _ hlia]
  · rw [getCell_of_colIdx cols _ "type" it hit, hexp,
      getD_set_ne _ is it _ (Ne.symm hit_is),
      getD_set_self _ it _ (by simpa [List.length_set] using hlit)]
  · rw [getCell_of_colIdx cols _ "sector" is his, hexp,
      getD_set_self _ is _ (by simpa [List.length_set] using hlis)]
  · rw [hexp]
    simp [List.length_set]

theorem enrichRow_no_match (cols : List String) (agents : List (String × AgentInfo))
    (r : List Value) (h : ∀ p ∈ agents, getCell cols r "agent" ≠ Value.str p.1) :
    enrichRow cols agents r = r := by
  induction agents with
  | nil => rfl
  | cons p rest ih =>
    have hfalse : (getCell cols r "agent" == Value.str p.1) = false := by
      rw [beq_eq_false_iff_ne]
      exact h p (by simp)
    simp only [enrichRow, hfalse, Bool.false_eq_true, if_false]
    exact ih (fun q hq => h q (by simp [hq]))

theorem enrichRow_match (cols : List String) :
    ∀ (agents : List (String × AgentInfo)) (r : List Value) (aid : String) (info : AgentInfo),
      r.length = cols.length →
      "agent" ∈ cols → "type" ∈ cols → "sector" ∈ cols →
      (agents.map Prod.fst).Nodup →
      (∀ p ∈ agents, ∀ q ∈ agents, p.2.agent ≠ q.1) →
      (aid, info) ∈ agents →
      getCell cols r "agent" = Value.str aid →
      getCell cols (enrichRow cols agents r) "agent" = Value.str info.agent ∧
      getCell cols (enrichRow cols agents r) "type" = Value.str info.type ∧
      getCell cols (enrichRow cols agents r) "sector" = Value.str info.sector := by
  intro agents
  induction agents with
  | nil =>
    intro r aid info _ _ _ _ _ _ hmem _
    simp at hmem
  | cons p rest ih =>
    intro r aid info hlen hag hty hse hnd halias hmem hcell
    simp only [List.map_cons, List.nodup_cons] at hnd
    rcases List.mem_cons.mp hmem with heq | hmem'
    · have hp : p = (aid, info) := heq.symm
      subst hp
      have htrue : (getCell cols r "agent" == Value.str aid) = true := by
        rw [hcell]
        simp
      simp only [enrichRow, htrue, if_true]
      have hcells := rowApply_items_cells cols r info hlen hag hty hse
      have hnomatch : ∀ q ∈ rest, getCell cols (rowApply cols info.items r) "agent" ≠
          Value.str q.1 := by
        intro q hq hcontr
        rw [hcells.1] at hcontr
        have : info.agent = q.1 := by simpa using hcontr
        exact halias (aid, info) (by simp) q (by simp [hq]) this
      rw [enrichRow_no_match cols rest _ hnomatch]
      exact ⟨hcells.1, hcells.2.1, hcells.2.2.1⟩
    · have haid : aid ∈ rest.map Prod.fst := by
        exact List.mem_map.mpr ⟨(aid, info), hmem', rfl⟩
      have hpne : p.1 ≠ aid := fun h => hnd.1 (h ▸ haid)
      have hfalse : (getCell cols r "agent" == Value.str p.1) = false := by
        rw [beq_eq_false_iff_ne, hcell]
        intro h
        exact hpne (by simpa using h.symm)
      simp only [enrichRow, hfalse, Bool.false_eq_true, if_false]
      exact ih r aid info hlen hag hty hse hnd.2
        (fun p' hp' q hq => halias p' (by simp [hp']) q (by simp [hq])) hmem' hcell

theorem getCell_ssort_map (cols : List String) (c : String) (hc : c ∈ cols)
    (row : List Value) :
    getCell (ssort strLe cols) ((ssort strLe cols).map (fun c' => getCell cols row c')) c =
      getCell cols row c := by
  have hmem : c ∈ ssort strLe cols := (ssort_perm strLe cols).mem_iff.mpr hc
  rcases colIdx_isSome_of_mem _ c hmem with ⟨i, hi⟩
  have hElem := colIdx_getElem _ c i hi
  rw [getCell_of_colIdx _ _ c i hi, List.getD_eq_getElem?_getD, List.getElem?_map, hElem]
  rfl

theorem forall2_map_self {α β : Type} {P : α → β → Prop} (f : α → β) :
    ∀ (l : List α), (∀ a ∈ l, P a (f a)) → List.Forall₂ P l (l.map f) := by
  intro l
  induction l with
  | nil => intro _; exact List.Forall₂.nil
  | cons a rest ih =>
    intro h
    exact List.Forall₂.cons (h a (by simp)) (ih (fun b hb => h b (by simp [hb])))

/-! ## `extract_agents` lemmas -/

theorem lookupA_foldl_dictInsert_not_mem (rec : Agent → AgentInfo) :
    ∀ (l : List Agent) (m : List (String × AgentInfo)) (u : String),
      u ∉ l.map Agent.uuid →
      lookupA (l.foldl (fun info a => dictInsert info a.uuid (rec a)) m) u = lookupA m u := by
  intro l
  induction l with
  | nil => intro m u _; rfl
  | cons b rest ih =>
    intro m u hu
    simp only [List.map_cons, List.mem_cons] at hu
    push_neg at hu
    simp only [List.foldl_cons]
    rw [ih _ u hu.2, lookupA_dictInsert_ne _ _ _ _ hu.1]

theorem lookupA_foldl_dictInsert_mem (rec : Agent → AgentInfo) :
    ∀ (l : List Agent) (m : List (String × AgentInfo)) (a : Agent),
      (l.map Agent.uuid).Nodup → a ∈ l →
      lookupA (l.foldl (fun info a => dictInsert info a.uuid (rec a)) m) a.uuid =
        some (rec a) := by
  intro l
  induction l with
  | nil => intro m a _ ha; simp at ha
  | cons b rest ih =>
    intro m a hnd ha
    simp only [List.map_cons, List.nodup_cons] at hnd
    simp only [List.foldl_cons]
    rcases List.mem_cons.mp ha with rfl | ha'
    · rw [lookupA_foldl_dictInsert_not_mem rec rest _ a.uuid hnd.1]
      exact lookupA_dictInsert_self _ _ _
    · exact ih _ a hnd.2 ha'

theorem lookupA_extract_agents_internal_not_mem (s : Sector) (u : String)
    (hu : u ∉ s.agents.map Agent.uuid) :
    lookupA (extract_agents_internal s) u = none := by
  unfold extract_agents_internal
  have hperm : ((ssort (fun a b => strLe a.name b.name) s.agents).map Agent.uuid).Perm
      (s.agents.map Agent.uuid) :=
    (ssort_perm _ s.agents).map Agent.uuid
  rw [lookupA_foldl_dictInsert_not_mem _ _ _ u (fun h => hu (hperm.mem_iff.mp h))]
  rfl

theorem lookupA_extract_agents_internal_mem (s : Sector) (a : Agent)
    (ha : a ∈ s.agents) (hnd : (s.agents.map Agent.uuid).Nodup) :
    lookupA (extract_agents_internal s) a.uuid =
      some ⟨a.name, a.category, s.name.getD "unnamed"⟩ := by
  unfold extract_agents_internal
  have hperm : ((ssort (fun a b => strLe a.name b.name) s.agents).map Agent.uuid).Perm
      (s.agents.map Agent.uuid) :=
    (ssort_perm _ s.agents).map Agent.uuid
  exact lookupA_foldl_dictInsert_mem _ _ _ a (hperm.nodup_iff.mpr hnd)
    ((ssort_perm _ s.agents).mem_iff.mpr ha)

theorem chainLookup_append_none (ms₁ ms₂ : List (List (String × AgentInfo))) (u : String)
    (h : ∀ m ∈ ms₁, lookupA m u = none) :
    chainLookup (ms₁ ++ ms₂) u = chainLookup ms₂ u := by
  induction ms₁ with
  | nil => rfl
  | cons m rest ih =>
    simp only [List.cons_append, chainLookup, h m (by simp)]
    exact ih (fun m' hm' => h m' (by simp [hm']))

/-- `cache` in terms of the resolved quantity. -/
theorem cache_eq (st : CacheState) (d : DataArr) (oq : Option String) :
    cache st d oq =
      match resolveQ (d, oq) with
      | none => st
      | some qn =>
        match lookupA st qn with
        | none => st
        | some c => dictInsert st qn (c ++ [(c.length, { d with name := some qn })]) := rfl

/-- The accumulation invariant behind C1: a container whose arrival keys
are `0, 1, …, n-1` keeps that shape across any sequence of `cache()`
calls, growing by one per call that resolves to its quantity. -/
theorem runCalls_container_shape (q : String) :
    ∀ (calls : List (DataArr × Option String)) (st : CacheState) (l : Container),
      lookupA st q = some l → l.map Prod.fst = List.range l.length →
      ∃ l' : Container,
        lookupA (runCalls st calls) q = some l' ∧
        l'.length = l.length + calls.countP (fun c => resolveQ c == some q) ∧
        l'.map Prod.fst = List.range l'.length := by
  intro calls
  induction calls with
  | nil =>
    intro st l hl hsh
    exact ⟨l, by simpa [runCalls] using hl, by simp, hsh⟩
  | cons c rest ih =>
    intro st l hl hsh
    have hrun : runCalls st (c :: rest) = runCalls (cache st c.1 c.2) rest := rfl
    rcases hres : resolveQ c with _ | qn
    · have hst : cache st c.1 c.2 = st := by
        rw [cache_eq]
        simp [hres]
      have hpred : (resolveQ c == some q) = false := by simp [hres]
      rcases ih st l hl hsh with ⟨l', h1, h2, h3⟩
      refine ⟨l', by rwa [hrun, hst], ?_, h3⟩
      simpa [List.countP_cons, hpred] using h2
    · by_cases hqq : qn = q
      · subst hqq
        have hst : cache st c.1 c.2 =
            dictInsert st qn (l ++ [(l.length, { c.1 with name := some qn })]) := by
          rw [cache_eq]
          simp [hres, hl]
        have hl₀ : lookupA (cache st c.1 c.2) qn =
            some (l ++ [(l.length, { c.1 with name := some qn })]) := by
          rw [hst]
          exact lookupA_dictInsert_self _ _ _
        have hsh₀ : (l ++ [(l.length, { c.1 with name := some qn })]).map Prod.fst =
            List.range (l ++ [(l.length, { c.1 with name := some qn })]).length := by
          simp [List.range_succ, hsh]
        rcases ih _ _ hl₀ hsh₀ with ⟨l', h1, h2, h3⟩
        refine ⟨l', by rwa [hrun], ?_, h3⟩
        rw [h2, List.countP_cons_of_pos _ _ (by simp [hres])]
        simp only [List.length_append, List.length_cons, List.length_nil]
        omega
      · have hunch : lookupA (cache st c.1 c.2) q = some l := by
          rw [cache_eq]
          rcases hcq : lookupA st qn with _ | ck
          · simpa [hres, hcq] using hl
          · simp only [hres, hcq]
            have hne : q ≠ qn := fun hEq => hqq hEq.symm
            rw [lookupA_dictInsert_ne _ _ _ _ hne]
            exact hl
        have hpred : (resolveQ c == some q) = false := by
          simp [hres, hqq]
        rcases ih _ _ hunch hsh with ⟨l', h1, h2, h3⟩
        refine ⟨l', by rwa [hrun], ?_, h3⟩
        simpa [List.countP_cons, hpred] using h2

/-! ## Claim theorems -/

/-- C1: starting from a configured, freshly empty container for `q`, after
any sequence of `cache()` calls (cache.py, lines 114–127) and before any
`consolidate_cache()`, the container for `q` holds exactly one entry per
call that resolved to quantity `q`, and the arrival keys are
`0, 1, …, n-1` in call order — each call inserted at key
`len(container)`, the container's size at the time of the call. -/
theorem cache_accumulates_in_arrival_order
    (st₀ : CacheState) (q : String) (h : lookupA st₀ q = some ([] : Container))
    (calls : List (DataArr × Option String)) :
    ∃ l : Container,
      lookupA (runCalls st₀ calls) q = some l ∧
      l.length = calls.countP (fun c => resolveQ c == some q) ∧
      l.map Prod.fst = List.range l.length := by
  rcases runCalls_container_shape q calls st₀ [] h (by simp) with ⟨l, h1, h2, h3⟩
  exact ⟨l, h1, by simpa using h2, h3⟩

/-- Witness for C1: four calls — two resolving to `"capacity"` (one
explicit, one via the payload's name), one with no resolvable quantity,
one to an unconfigured quantity — leave a container of length 2 keyed
`0, 1`. -/
theorem cache_accumulates_in_arrival_order_witness :
    lookupA [("capacity", ([] : Container))] "capacity" = some ([] : Container) ∧
    ∃ l : Container,
      lookupA
        (runCalls [("capacity", [])]
          [(sampleArr, some "capacity"), (sampleArr, none),
            (sampleArr2, none), (sampleArr2, some "lcoe")]) "capacity" = some l ∧
      l.length =
        List.countP (fun c => resolveQ c == some "capacity")
          [(sampleArr, some "capacity"), (sampleArr, none),
            (sampleArr2, none), (sampleArr2, some "lcoe")] ∧
      l.map Prod.fst = List.range l.length :=
  ⟨by decide,
    cache_accumulates_in_arrival_order [("capacity", [])] "capacity" (by decide)
      [(sampleArr, some "capacity"), (sampleArr, none),
        (sampleArr2, none), (sampleArr2, some "lcoe")]⟩

/-- C2: after a `consolidate_cache()` that returns without raising, every
configured quantity's container is empty, whatever it held before
(cache.py, line 142 rebuilds `to_save` with fresh empty datasets). -/
theorem consolidate_cache_empties_containers
    (factory : String → Container → Option PyErr) (st : CacheState)
    (log : List String) (st' : CacheState)
    (h : consolidate_cache factory st = (log, none, st')) :
    ∀ p ∈ st', p.2 = ([] : Container) := by
  intro p hp
  rw [consolidate_ok_state factory st log st' h] at hp
  rcases List.mem_map.mp hp with ⟨p₀, _, rfl⟩
  rfl

/-- Witness for C2 at a concrete state: one non-empty and one empty
container, a sink that succeeds; after the call both containers are
empty. -/
theorem consolidate_cache_empties_containers_witness :
    consolidate_cache (fun _ _ => none) [("capacity", [(0, sampleArr)]), ("lcoe", [])] =
      (["capacity"], none, [("capacity", []), ("lcoe", [])]) ∧
    ∀ p ∈ [("capacity", ([] : Container)), ("lcoe", ([] : Container))], p.2 = ([] : Container) :=
  ⟨by decide,
    consolidate_cache_empties_containers (fun _ _ => none)
      [("capacity", [(0, sampleArr)]), ("lcoe", [])] ["capacity"]
      [("capacity", []), ("lcoe", [])] (by decide)⟩

/-- C3: for every non-empty container of cached `"capacity"` entries, the
consolidated table produced by `capacity` (cache.py, lines 198–213) equals
the right-biased successive merge of the entries in arrival order
(`combine_arrays`, cache.py, lines 183–195 — each merge keeping all rows
of the later entry, joining matching keys from the accumulated left side),
with the rows whose `capacity` value is exactly 0 removed and the columns
sorted alphabetically.  The claim involves no agent metadata, so the Agent
Info Record is empty and the enrichment loop is vacuous. -/
theorem capacity_is_merge_filter_sort (cached : Container) (h : cached ≠ []) :
    capacity cached [] =
      (specRightMerge (cached.map (fun p => toDF p.2 "capacity"))).map
        (fun t => sortCols (filterNonzero "capacity" t)) := by
  cases cached with
  | nil => exact absurd rfl h
  | cons p rest => rfl

/-- Witness for C3 at two concrete entries sharing technology `t2`: the
right merge keeps the later entry's rows, the zero-capacity row of the
first entry is gone, and the columns come out sorted. -/
theorem capacity_is_merge_filter_sort_witness :
    (([(0, sampleArr), (1, sampleArr2)] : Container) ≠ []) ∧
    capacity [(0, sampleArr), (1, sampleArr2)] [] =
      (specRightMerge ([(0, sampleArr), (1, sampleArr2)].map (fun p => toDF p.2 "capacity"))).map
        (fun t => sortCols (filterNonzero "capacity" t)) :=
  ⟨by decide, capacity_is_merge_filter_sort [(0, sampleArr), (1, sampleArr2)] (by decide)⟩

/-- C4: in the `capacity` consolidation function, the agent-overwrite loop
followed by the column sort (cache.py, lines 208–213, embedded as
`sortCols (enrich agents df)` applied to the merged table `df`): every row
whose `agent` cell equals a uuid of the Agent Info Record comes out with
its `agent`, `type` and `sector` columns overwritten by that record's
values, and every row whose `agent` cell matches no uuid of the record
keeps its original values in those columns.  The record's keys are assumed
distinct and its display names disjoint from its uuids — `ChainMap` keys
are unique and uuids are uuid strings, never names. -/
theorem capacity_enrichment_overwrites_matching_rows
    (df : DF) (agents : List (String × AgentInfo))
    (hlen : ∀ row ∈ df.rows, row.length = df.cols.length)
    (hag : "agent" ∈ df.cols) (hty : "type" ∈ df.cols) (hse : "sector" ∈ df.cols)
    (hkeys : (agents.map Prod.fst).Nodup)
    (halias : ∀ p ∈ agents, ∀ q ∈ agents, p.2.agent ≠ q.1) :
    List.Forall₂ (fun row row' =>
        (∀ aid info, (aid, info) ∈ agents →
          getCell df.cols row "agent" = Value.str aid →
          getCell (sortCols (enrich agents df)).cols row' "agent" = Value.str info.agent ∧
          getCell (sortCols (enrich agents df)).cols row' "type" = Value.str info.type ∧
          getCell (sortCols (enrich agents df)).cols row' "sector" = Value.str info.sector) ∧
        ((∀ p ∈ agents, getCell df.cols row "agent" ≠ Value.str p.1) →
          getCell (sortCols (enrich agents df)).cols row' "agent" =
            getCell df.cols row "agent" ∧
          getCell (sortCols (enrich agents df)).cols row' "type" =
            getCell df.cols row "type" ∧
          getCell (sortCols (enrich agents df)).cols row' "sector" =
            getCell df.cols row "sector"))
      df.rows (sortCols (enrich agents df)).rows := by
  rw [enrich_rows df agents hag hty hse]
  simp only [sortCols, List.map_map]
  apply forall2_map_self
  intro r hr
  simp only [Function.comp]
  constructor
  · intro aid info hmem hcell
    have hmatch := enrichRow_match df.cols agents r aid info (hlen r hr) hag hty hse
      hkeys halias hmem hcell
    refine ⟨?_, ?_, ?_⟩
    · rw [getCell_ssort_map df.cols "agent" hag (enrichRow df.cols agents r)]
      exact hmatch.1
    · rw [getCell_ssort_map df.cols "type" hty (enrichRow df.cols agents r)]
      exact hmatch.2.1
    · rw [getCell_ssort_map df.cols "sector" hse (enrichRow df.cols agents r)]
      exact hmatch.2.2
  · intro hnm
    have hid : enrichRow df.cols agents r = r := enrichRow_no_match df.cols agents r hnm
    refine ⟨?_, ?_, ?_⟩
    · rw [getCell_ssort_map df.cols "agent" hag (enrichRow df.cols agents r), hid]
    · rw [getCell_ssort_map df.cols "type" hty (enrichRow df.cols agents r), hid]
    · rw [getCell_ssort_map df.cols "sector" hse (enrichRow df.cols agents r), hid]

/-- Witness for C4 at `sampleEnrichDF` and `sampleAgents`: the row of
agent `X` is rewritten to Alice/retrofit/power, the row of the unknown
agent `Z` keeps its cells. -/
theorem capacity_enrichment_overwrites_matching_rows_witness :
    ((∀ row ∈ sampleEnrichDF.rows, row.length = sampleEnrichDF.cols.length) ∧
      "agent" ∈ sampleEnrichDF.cols ∧ "type" ∈ sampleEnrichDF.cols ∧
      "sector" ∈ sampleEnrichDF.cols ∧
      (sampleAgents.map Prod.fst).Nodup ∧
      (∀ p ∈ sampleAgents, ∀ q ∈ sampleAgents, p.2.agent ≠ q.1)) ∧
    List.Forall₂ (fun row row' =>
        (∀ aid info, (aid, info) ∈ sampleAgents →
          getCell sampleEnrichDF.cols row "agent" = Value.str aid →
          getCell (sortCols (enrich sampleAgents sampleEnrichDF)).cols row' "agent" =
            Value.str info.agent ∧
          getCell (sortCols (enrich sampleAgents sampleEnrichDF)).cols row' "type" =
            Value.str info.type ∧
          getCell (sortCols (enrich sampleAgents sampleEnrichDF)).cols row' "sector" =
            Value.str info.sector) ∧
        ((∀ p ∈ sampleAgents, getCell sampleEnrichDF.cols row "agent" ≠ Value.str p.1) →
          getCell (sortCols (enrich sampleAgents sampleEnrichDF)).cols row' "agent" =
            getCell sampleEnrichDF.cols row "agent" ∧
          getCell (sortCols (enrich sampleAgents sampleEnrichDF)).cols row' "type" =
            getCell sampleEnrichDF.cols row "type" ∧
          getCell (sortCols (enrich sampleAgents sampleEnrichDF)).cols row' "sector" =
            getCell sampleEnrichDF.cols row "sector"))
      sampleEnrichDF.rows (sortCols (enrich sampleAgents sampleEnrichDF)).rows :=
  ⟨⟨by decide, by decide, by decide, by decide, by decide, by decide⟩,
    capacity_enrichment_overwrites_matching_rows sampleEnrichDF sampleAgents
      (by decide) (by decide) (by decide) (by decide) (by decide) (by decide)⟩

/-- C5: the Agent Info Record built by `extract_agents` (cache.py, lines
145–180) maps an agent's uuid to `{agent: name, type: category, sector:
sector name or "unnamed"}`; a uuid carried by several sectors resolves to
the sector that appears first in the input list (`ChainMap` keeps the
earlier layer), regardless of what the later sectors hold. -/
theorem extract_agents_record_first_wins
    (fore aft : List Sector) (s : Sector) (a : Agent)
    (ha : a ∈ s.agents)
    (hnd : (s.agents.map Agent.uuid).Nodup)
    (hfore : ∀ s' ∈ fore, a.uuid ∉ s'.agents.map Agent.uuid) :
    chainLookup (extract_agents (fore ++ s :: aft)) a.uuid =
      some ⟨a.name, a.category, s.name.getD "unnamed"⟩ := by
  unfold extract_agents
  rw [List.map_append, List.map_cons,
    chainLookup_append_none _ _ a.uuid (fun m hm => ?_)]
  · simp only [chainLookup, lookupA_extract_agents_internal_mem s a ha hnd]
  · rcases List.mem_map.mp hm with ⟨s', hs', rfl⟩
    exact lookupA_extract_agents_internal_not_mem s' a.uuid (hfore s' hs')

/-- Witness for C5: two sectors both carrying an agent with uuid `"X"`;
the record resolves `"X"` to the first sector's agent (Alice of sector
`power`), not the second's (Bob). -/
theorem extract_agents_record_first_wins_witness :
    ((⟨"X", "Alice", "retrofit"⟩ : Agent) ∈ sampleSectorA.agents ∧
      (sampleSectorA.agents.map Agent.uuid).Nodup ∧
      "X" ∈ sampleSectorB.agents.map Agent.uuid) ∧
    chainLookup (extract_agents ([] ++ sampleSectorA :: [sampleSectorB])) "X" =
      some ⟨"Alice", "retrofit", "power"⟩ :=
  ⟨⟨by decide, by decide, by decide⟩,
    extract_agents_record_first_wins [] [sampleSectorB] sampleSectorA
      ⟨"X", "Alice", "retrofit"⟩ (by decide) (by decide) (by decide)⟩

/-- C6: `cache(data, q)` for an unconfigured quantity `q` returns normally
and leaves the state exactly as it was (cache.py, lines 123–124: the early
`return`; no operation in the body can raise). -/
theorem cache_unconfigured_is_noop (st : CacheState) (d : DataArr) (q : String)
    (h : lookupA st q = none) : cache st d (some q) = st :=
  cache_noop_of_not_configured st d q h

/-- Witness for C6: caching under `"lcoe"` when only `"capacity"` is
configured leaves the state untouched. -/
theorem cache_unconfigured_is_noop_witness :
    lookupA [("capacity", ([] : Container))] "lcoe" = none ∧
    cache [("capacity", [])] sampleArr (some "lcoe") = [("capacity", [])] :=
  ⟨by decide, cache_unconfigured_is_noop [("capacity", [])] sampleArr "lcoe" (by decide)⟩

/-- C9 counterexample: the claim says a `cache(data)` call with no quantity
and a nameless payload fails with a "missing quantity identifier" error.
It does not: `quantity` resolves to `None`, `None not in self.to_save` is
plain `False` (cache.py, line 123), so the call silently returns with the
state unchanged — the embedding of `cache` is total precisely because no
operation in its body can raise. -/
theorem cache_no_name_counterexample :
    cache [("capacity", [])] ⟨none, ["tech"], []⟩ none = [("capacity", [])] := by
  decide

/-- C9 (amended): `cache(data)` with no quantity argument and a payload
whose name is `None` returns normally, raising no error, and leaves every
container unchanged (a silent no-op). -/
theorem cache_no_name_is_silent_noop (st : CacheState) (d : DataArr)
    (h : d.name = none) : cache st d none = st :=
  cache_noop_of_no_name st d h

/-- Witness for the amended C9 at a concrete nameless payload. -/
theorem cache_no_name_is_silent_noop_witness :
    (DataArr.name ⟨none, ["tech"], []⟩ = none) ∧
    cache [("capacity", [(0, sampleArr)])] ⟨none, ["tech"], []⟩ none =
      [("capacity", [(0, sampleArr)])] :=
  ⟨rfl, cache_no_name_is_silent_noop [("capacity", [(0, sampleArr)])] ⟨none, ["tech"], []⟩ rfl⟩

/-- C10: constructing an `OutputCache` with a bare string specification is
documented (cache.py, lines 79–81) to behave like `{"quantity": s}`, but
the constructor evaluates `p["quantity"]` on the bare string (cache.py,
line 105) — in Python a `TypeError` ("string indices must be integers") —
before building any container or sink.  The code contradicts its own
docstring: evaluated at the registered quantity `"capacity"`, construction
raises instead of succeeding. -/
theorem init_bare_string_raises :
    initOutputCache ["capacity"] [PParam.str "capacity"] = .error .typeError := rfl

/-- C7: when the flush of quantity `q` raises during `consolidate_cache()`
(the containers being `fore ++ (q, c) :: aft` in iteration order, every
non-empty container of `fore` flushing cleanly), the error propagates to
the caller, the invoked sinks are exactly `fore`'s non-empty quantities
followed by `q` — nothing of `aft` is flushed — and `to_save` is exactly
its pre-call value: the reset on cache.py line 142 never runs. -/
theorem consolidate_cache_error_aborts_and_retains
    (factory : String → Container → Option PyErr)
    (fore aft : List (String × Container)) (q : String) (c : Container) (e : PyErr)
    (hc : c ≠ []) (he : factory q c = some e)
    (hfore : ∀ p ∈ fore, p.2 ≠ [] → factory p.1 p.2 = none) :
    consolidate_cache factory (fore ++ (q, c) :: aft) =
      ((fore.filter (fun p => !p.2.isEmpty)).map Prod.fst ++ [q], some e,
        fore ++ (q, c) :: aft) := by
  unfold consolidate_cache
  rw [runFlush_error_at factory fore aft q c e hc he hfore]

/-- Witness for C7: three containers; the second one's sink raises.  The
first is flushed, the third is not, and all three containers keep their
entries. -/
theorem consolidate_cache_error_aborts_and_retains_witness :
    (([(0, sampleArr)] : Container) ≠ []) ∧
    consolidate_cache
        (fun qn _ => if qn = "capacity" then some PyErr.keyError else none)
        [("lcoe", [(0, sampleArr2)]), ("capacity", [(0, sampleArr)]),
          ("production", [(0, sampleArr2)])] =
      (["lcoe", "capacity"], some PyErr.keyError,
        [("lcoe", [(0, sampleArr2)]), ("capacity", [(0, sampleArr)]),
          ("production", [(0, sampleArr2)])]) :=
  ⟨by decide,
    consolidate_cache_error_aborts_and_retains
      (fun qn _ => if qn = "capacity" then some PyErr.keyError else none)
      [("lcoe", [(0, sampleArr2)])] [("production", [(0, sampleArr2)])]
      "capacity" [(0, sampleArr)] PyErr.keyError
      (by decide) (by decide) (by decide)⟩

/-- C8: constructing an `OutputCache` whose parameter list (of mappings)
contains a quantity `q` absent from the registry succeeds without raising;
no container and no sink is built for `q` (cache.py, lines 102–111 filter
on membership in `output_quantities`); and after any sequence of later
`cache()` calls, caching under `q` is still a no-op and no
`consolidate_cache()` ever invokes a sink for `q`. -/
theorem init_unregistered_quantity_ignored
    (oq : List String) (ms : List String) (q : String)
    (_hmem : q ∈ ms) (hq : q ∉ oq) :
    ∃ r : OutputCacheInit,
      initOutputCache oq (ms.map PParam.map) = .ok r ∧
      lookupA r.to_save q = none ∧
      q ∉ r.factoryKeys ∧
      ∀ calls : List (DataArr × Option String),
        (∀ d, cache (runCalls r.to_save calls) d (some q) = runCalls r.to_save calls) ∧
        (∀ factory : String → Container → Option PyErr,
          q ∉ (consolidate_cache factory (runCalls r.to_save calls)).1) := by
  have hinit : initOutputCache oq (ms.map PParam.map) =
      .ok ⟨(pyDedup (ms.filter (fun x => oq.contains x))).map (fun k => (k, [])),
        pyDedup (ms.filter
          (fun x => (pyDedup (ms.filter (fun x => oq.contains x))).contains x))⟩ := by
    unfold initOutputCache
    rw [getQuantities_on_maps]
    rfl
  refine ⟨_, hinit, ?_, ?_, ?_⟩
  · apply lookupA_eq_none_of_not_mem
    intro p hp
    rcases List.mem_map.mp hp with ⟨k, hk, rfl⟩
    have : k ∈ oq := by
      have := (mem_pyDedup _ _).mp hk
      simpa using (List.mem_filter.mp this).2
    intro hEq
    exact hq (hEq ▸ this)
  · intro hmemf
    have h1 := (mem_pyDedup _ _).mp hmemf
    have h2 : (pyDedup (ms.filter (fun x => oq.contains x))).contains q := by
      simpa using (List.mem_filter.mp h1).2
    have h3 : q ∈ ms.filter (fun x => oq.contains x) :=
      (mem_pyDedup _ _).mp (by simpa using h2)
    have : q ∈ oq := by simpa using (List.mem_filter.mp h3).2
    exact hq this
  · intro calls
    have hnone : lookupA
        ((pyDedup (ms.filter (fun x => oq.contains x))).map (fun k => (k, ([] : Container)))) q =
        none := by
      apply lookupA_eq_none_of_not_mem
      intro p hp
      rcases List.mem_map.mp hp with ⟨k, hk, rfl⟩
      have : k ∈ oq := by
        have := (mem_pyDedup _ _).mp hk
        simpa using (List.mem_filter.mp this).2
      intro hEq
      exact hq (hEq ▸ this)
    have hrun := runCalls_preserves_none _ q calls hnone
    refine ⟨fun d => cache_noop_of_not_configured _ d q hrun, fun factory hlog => ?_⟩
    rw [consolidate_log_eq_runFlush_log] at hlog
    have hkeys := runFlush_log_subset factory _ hlog
    exact lookupA_ne_none_of_mem_keys _ q hkeys hrun

/-- Witness for C8: registry `["capacity"]`, parameters
`[{"quantity": "capacity"}, {"quantity": "lcoe"}]` — the unregistered
`"lcoe"` is silently ignored. -/
theorem init_unregistered_quantity_ignored_witness :
    ("lcoe" ∈ ["capacity", "lcoe"] ∧ "lcoe" ∉ ["capacity"]) ∧
    ∃ r : OutputCacheInit,
      initOutputCache ["capacity"] (["capacity", "lcoe"].map PParam.map) = .ok r ∧
      lookupA r.to_save "lcoe" = none ∧
      "lcoe" ∉ r.factoryKeys ∧
      ∀ calls : List (DataArr × Option String),
        (∀ d, cache (runCalls r.to_save calls) d (some "lcoe") = runCalls r.to_save calls) ∧
        (∀ factory : String → Container → Option PyErr,
          "lcoe" ∉ (consolidate_cache factory (runCalls r.to_save calls)).1) :=
  ⟨⟨by decide, by decide⟩,
    init_unregistered_quantity_ignored ["capacity"] ["capacity", "lcoe"] "lcoe"
      (by decide) (by decide)⟩

end MuseCache
